import Mathlib

/-!
Verification development for the Arcu repository: an RCU-like container
built from an atomic publication slot, per-thread 8-bit epoch counters,
and a quiescence scan that licenses reclamation.

The definitions below are a shallow embedding of the Rust sources:
  src/src/epoch_counters.rs  (EpochCounter, EpochCounterPool scan)
  src/src/atomic.rs          (atomic Arcu: raw_read, raw_replace, raw_try_update)
  src/src/arcu.rs            (older standalone Arcu variant of raw_try_update)
  src/src/rwlock.rs          (reader-writer-lock Arcu oracle)
  src/src/rcu_ref.rs         (RcuRef snapshot handle)
Machine integers (AtomicU8) are modelled as Nat with explicit reduction
modulo 256; Arc pointers are modelled as natural-number identifiers with
an explicit strong-count heap; panicking assertions and fallible paths
are modelled with Option / explicit result constructors.
-/

namespace Arcu

/-! ## EpochCounter (src/src/epoch_counters.rs, lines 69-109)

The counter is an AtomicU8; we model its value as a Nat kept below 256 by
reducing every increment modulo 256.  fetch_add returns the old value and
stores the incremented one; the assertion after the fetch_add aborts the
program, which we model by returning none. -/

/-- Model of AtomicU8 fetch_add(1): returns the old value and the new stored
value, with 8-bit wraparound. -/
def fetchAdd1 (v : Nat) : Nat × Nat := (v, (v + 1) % 256)

/-- EpochCounter.enter_rcs: atomically increment; the assertion demands the
old value be even, otherwise the program aborts (modelled as none). -/
def enter_rcs (v : Nat) : Option Nat :=
  let r := fetchAdd1 v
  if r.1 % 2 = 0 then some r.2 else none

/-- EpochCounter.leave_rcs: atomically increment; the assertion demands the
old value be odd, otherwise the program aborts (modelled as none). -/
def leave_rcs (v : Nat) : Option Nat :=
  let r := fetchAdd1 v
  if r.1 % 2 ≠ 0 then some r.2 else none

/-- EpochCounter.new: a fresh counter holds 0 (AtomicU8::new(0)). -/
def EpochCounter.new : Nat := 0

/-- Default for EpochCounter delegates to Self::new(). -/
def EpochCounter.default : Nat := EpochCounter.new

/-- Run n alternating enter_rcs / leave_rcs pairs starting from value v,
aborting (none) as soon as either assertion fires. -/
def rcsPairs (v : Nat) : Nat → Option Nat
  | 0 => some v
  | n + 1 => (rcsPairs v n).bind (fun w => (enter_rcs w).bind leave_rcs)

/-! ## The quiescence scan (src/src/epoch_counters.rs lines 130-165 and the
identical src/src/atomic.rs lines 202-235)

A counter registry entry is a weak reference; observing it at a point in
time either fails to upgrade (owner gone, modelled none) or yields the
current counter value.  The environment env t c gives the observation of
counter c at observation step t; step 0 is the initial scan, steps 1, 2, ...
are the successive retain passes of the busy loop. -/

/-- Counter identifier inside a registry. -/
abbrev CtrId := Nat

/-- The initial scan: upgrade each weak reference, ignore dead entries and
entries whose sampled value is even, keep (sampled odd value, counter). -/
def scanInit (env0 : CtrId → Option Nat) (cs : List CtrId) : List (Nat × CtrId) :=
  cs.filterMap (fun c =>
    match env0 c with
    | none => none
    | some v => if v % 2 = 0 then none else some (v, c))

/-- One retain pass of the busy loop: keep a pair only when the weak
reference still upgrades and the reloaded value equals the sampled value. -/
def retainStep (envt : CtrId → Option Nat) (ps : List (Nat × CtrId)) : List (Nat × CtrId) :=
  ps.filter (fun p =>
    match envt p.2 with
    | none => false
    | some v => v == p.1)

/-- The busy loop of wait_for_epochs, with fuel: returns the step index at
which the pair list became empty, or none when the fuel ran out (the loop
is a busy spin with no bound on wait time). -/
def waitLoop (env : Nat → CtrId → Option Nat) : Nat → Nat → List (Nat × CtrId) → Option Nat
  | fuel, t, ps =>
    if ps.isEmpty then some t
    else
      match fuel with
      | 0 => none
      | fuel + 1 => waitLoop env fuel (t + 1) (retainStep (env t) ps)

/-- wait_for_epochs: snapshot the registry at step 0, then spin. -/
def wait_for_epochs (env : Nat → CtrId → Option Nat) (fuel : Nat) (cs : List CtrId) : Option Nat :=
  waitLoop env fuel 1 (scanInit (env 0) cs)

/-! ## The atomic publication Slot (src/src/atomic.rs)

Arc pointers are modelled as natural-number identifiers (Ptr).  The state
carries the active_value pointer of the Arcu, a strong-count heap, the
payload value behind each allocated pointer, and an allocation counter
that yields fresh pointers.  Operations additionally produce a trace of
the externally meaningful events they perform. -/

/-- Pointer identifier, modelling the address of an Arc allocation. -/
abbrev Ptr := Nat

/-- Externally meaningful events emitted by Slot operations. -/
inductive Event where
  | enterRcs
  | leaveRcs
  | casSucc
  | casFail
  | waitEpochs
  | deallocCand
deriving DecidableEq, BEq

/-- State of one Arcu plus the Arc heap it allocates from. -/
structure SlotState (α : Type) where
  slot : Ptr
  strong : Ptr → Nat
  val : Ptr → α
  next : Ptr

/-- Allocate a fresh Arc with one strong count (Arc::new). -/
def alloc (st : SlotState α) (a : α) : Ptr × SlotState α :=
  (st.next,
   { st with
     strong := fun p => if p = st.next then 1 else st.strong p,
     val := fun p => if p = st.next then a else st.val p,
     next := st.next + 1 })

/-- Increment the strong count of a payload (Arc::increment_strong_count
or Arc::clone). -/
def bump (st : SlotState α) (p : Ptr) : SlotState α :=
  { st with strong := fun q => if q = p then st.strong q + 1 else st.strong q }

/-- Decrement the strong count of a payload (dropping one Arc handle). -/
def unbump (st : SlotState α) (p : Ptr) : SlotState α :=
  { st with strong := fun q => if q = p then st.strong q - 1 else st.strong q }

/-- Decrement a strong count and report whether the count reached zero,
i.e. whether this drop deallocated the payload. -/
def decStrong (st : SlotState α) (p : Ptr) : SlotState α × Bool :=
  (unbump st p, st.strong p == 1)

/-- The empty heap, with default payload value d behind unallocated ids. -/
def emptySt (d : α) : SlotState α :=
  { slot := 0, strong := fun _ => 0, val := fun _ => d, next := 0 }

/-- Arcu::new / Arcu::from_arc: allocate the initial payload and store its
raw pointer in the atomic slot (AtomicPtr::new(Arc::into_raw(initial))). -/
def arcuNew (v : α) : SlotState α :=
  let r := alloc (emptySt v) v
  { r.2 with slot := r.1 }

/-- atomic.rs raw_read (lines 64-91): enter_rcs on the counter, load the
slot pointer, increment its strong count, leave_rcs; returns the read
pointer, the new counter value, the new state and the event trace.  A
fired counter assertion aborts the program (none). -/
def raw_read (st : SlotState α) (c : Nat) : Option (Ptr × Nat × SlotState α × List Event) :=
  match enter_rcs c with
  | none => none
  | some c1 =>
    let p := st.slot
    let st1 := bump st p
    match leave_rcs c1 with
    | none => none
    | some c2 => some (p, c2, st1, [.enterRcs, .leaveRcs])

/-- Value-level read: the payload value a completed raw_read hands back. -/
def readValue (st : SlotState α) (c : Nat) : Option α :=
  match raw_read st c with
  | none => none
  | some r => some (r.2.2.1.val r.1)

/-- atomic.rs raw_replace (lines 97-121): swap the slot pointer with the
(already allocated) new pointer, wait for the epoch pool, then hand the
displaced pointer and its former slot strong count to the caller. -/
def raw_replace (st : SlotState α) (newPtr : Ptr) : Ptr × SlotState α × List Event :=
  let old := st.slot
  (old, { st with slot := newPtr }, [Event.waitEpochs])

/-- Interference by a concurrent writer between this thread reading the
slot and its compare-and-swap: none leaves the slot alone; some a models a
concurrent replace that installs a fresh payload holding a.  The
interfering writer takes over the former slot strong count of the
displaced payload and keeps it alive, so strong counts are unchanged. -/
def interfere (st : SlotState α) : Option α → SlotState α
  | none => st
  | some a =>
    let r := alloc st a
    { r.2 with slot := r.1 }

/-- Result of a raw_try_update run: ok carries the returned value (the
displaced pointer, or none when the update function aborted), the final
counter, the final state and the event trace; abort is a fired counter
assertion; out marks exhaustion of the interference schedule, which the
theorems show unreachable. -/
inductive RunRes (α : Type) where
  | ok (res : Option Ptr) (c : Nat) (st : SlotState α) (tr : List Event)
  | abort
  | out

/-- Prefix a trace onto the result of the remaining loop iterations. -/
def RunRes.withTrace (pre : List Event) : RunRes α → RunRes α
  | .ok r c st tr => .ok r c st (pre ++ tr)
  | x => x

/-- Trace projection of a run result. -/
def RunRes.traceOf : RunRes α → Option (List Event)
  | .ok _ _ _ tr => some tr
  | _ => none

/-- Returned-value projection of a run result. -/
def RunRes.resOf : RunRes α → Option (Option Ptr)
  | .ok r _ _ _ => some r
  | _ => none

/-- Final-state projection of a run result. -/
def RunRes.stateOf : RunRes α → Option (SlotState α)
  | .ok _ _ st _ => some st
  | _ => none

/-- Final-counter projection of a run result. -/
def RunRes.ctrOf : RunRes α → Option Nat
  | .ok _ c _ _ => some c
  | _ => none

/-- atomic.rs raw_try_update (lines 130-197).  Each loop iteration:
raw_read the current value into old; apply the update function, returning
none on abort (dropping the read reference); otherwise allocate the
candidate (Arc::into_raw), suffer the scheduled interference, and
compare-and-swap the slot against the pointer of old.  On success the slot
count of old is taken over, wait_for_epochs runs, and old is returned; on
failure the candidate strong count is reclaimed locally (deallocating it)
and the loop retries with the next schedule entry; no wait occurs. -/
def raw_try_update (f : α → Option α) : Nat → List (Option α) → SlotState α → RunRes α
  | c, sched, st =>
    match raw_read st c with
    | none => .abort
    | some (old, c1, st1, ev1) =>
      match f (st1.val old) with
      | none => .ok none c1 (unbump st1 old) ev1
      | some newVal =>
        let r := alloc st1 newVal
        let newPtr := r.1
        let st3 := interfere r.2 (sched.headD none)
        if st3.slot = old then
          .ok (some old) c1 (unbump { st3 with slot := newPtr } old)
            (ev1 ++ [.casSucc, .waitEpochs])
        else
          match sched with
          | [] => .out
          | _ :: rest =>
            let d := decStrong st3 newPtr
            let st4 := unbump d.1 old
            RunRes.withTrace
              (ev1 ++ [.casFail] ++ (if d.2 then [.deallocCand] else []))
              (raw_try_update f c1 rest st4)

/-- arcu.rs raw_try_update (lines 203-287), the older standalone variant:
identical loop except that after a failed compare-exchange it first calls
wait_for_epochs and only then reclaims the candidate strong count.  (The
unconditional decrement of the read reference of old directly after the
compare-exchange is folded into each branch.) -/
def raw_try_update_old (f : α → Option α) : Nat → List (Option α) → SlotState α → RunRes α
  | c, sched, st =>
    match raw_read st c with
    | none => .abort
    | some (old, c1, st1, ev1) =>
      match f (st1.val old) with
      | none => .ok none c1 (unbump st1 old) ev1
      | some newVal =>
        let r := alloc st1 newVal
        let newPtr := r.1
        let st3 := interfere r.2 (sched.headD none)
        if st3.slot = old then
          .ok (some old) c1 (unbump { st3 with slot := newPtr } old)
            (ev1 ++ [.casSucc, .waitEpochs])
        else
          match sched with
          | [] => .out
          | _ :: rest =>
            let st3b := unbump st3 old
            let d := decStrong st3b newPtr
            RunRes.withTrace
              (ev1 ++ [.casFail, .waitEpochs] ++ (if d.2 then [.deallocCand] else []))
              (raw_try_update_old f c1 rest d.1)

/-- Run a sequence of replace operations: each allocates an Arc for its
payload and calls raw_replace, collecting the displaced pointers. -/
def runReplaces (st : SlotState α) : List α → List Ptr × SlotState α × List Event
  | [] => ([], st, [])
  | u :: rest =>
    let a := alloc st u
    let r := raw_replace a.2 a.1
    let rec1 := runReplaces r.2.1 rest
    (r.1 :: rec1.1, rec1.2.1, r.2.2 ++ rec1.2.2)

/-! ## The reader-writer-lock Slot (src/src/rwlock.rs)

The oracle implementation: read clones the Arc under a shared lock and
ignores the epoch counter; replace exchanges under an exclusive lock with
no quiescence wait; try_update retries on pointer inequality. -/

/-- rwlock.rs raw_read (lines 63-65): clone the Arc under the read lock;
the epoch counter is ignored and untouched. -/
def rwRawRead (st : SlotState α) (c : Nat) : Ptr × Nat × SlotState α × List Event :=
  (st.slot, c, bump st st.slot, [])

/-- rwlock.rs raw_replace (lines 71-77): mem::replace under the write
lock; no epoch wait. -/
def rwRawReplace (st : SlotState α) (newPtr : Ptr) : Ptr × SlotState α × List Event :=
  (st.slot, { st with slot := newPtr }, [])

/-- rwlock.rs raw_try_update (lines 87-104): clone the current Arc, apply
the update function (none aborts), take the write lock and exchange when
the held Arc is still pointer-equal to the current one, else drop the
candidate and the old clone and retry. -/
def rwRawTryUpdate (f : α → Option α) : Nat → List (Option α) → SlotState α → RunRes α
  | c, sched, st =>
    let rd := rwRawRead st c
    let old := rd.1
    let st1 := rd.2.2.1
    match f (st1.val old) with
    | none => .ok none c (unbump st1 old) []
    | some newVal =>
      let r := alloc st1 newVal
      let newPtr := r.1
      let st3 := interfere r.2 (sched.headD none)
      if st3.slot = old then
        .ok (some old) c (unbump { st3 with slot := newPtr } old) []
      else
        match sched with
        | [] => .out
        | _ :: rest =>
          let d := decStrong st3 newPtr
          let st4 := unbump d.1 old
          RunRes.withTrace (if d.2 then [.deallocCand] else [])
            (rwRawTryUpdate f c rest st4)

/-! ## Differential-testing driver (spec section 4.5 / 8): one scenario,
run against both Slot implementations. -/

/-- One scenario operation; tryUpdate carries the interference schedule
its loop will suffer (the scheduling of concurrent writers). -/
inductive Op (α : Type) where
  | read
  | replace (u : α)
  | tryUpdate (f : α → Option α) (sched : List (Option α))

/-- Observable outcome of one operation: the payload value a read or
replace hands back, or the optional displaced value of a tryUpdate. -/
inductive Out (α : Type) where
  | val (a : α)
  | opt (a : Option α)
deriving DecidableEq, BEq

/-- Run a scenario against the atomic Slot, threading the epoch counter;
none when a counter assertion aborted. -/
def runAtomic : Nat → SlotState α → List (Op α) → Option (List (Out α) × SlotState α × Nat)
  | c, st, [] => some ([], st, c)
  | c, st, op :: ops =>
    match op with
    | .read =>
      match raw_read st c with
      | none => none
      | some (p, c1, st1, _) =>
        match runAtomic c1 st1 ops with
        | none => none
        | some (outs, stF, cF) => some (.val (st1.val p) :: outs, stF, cF)
    | .replace u =>
      let a := alloc st u
      let r := raw_replace a.2 a.1
      match runAtomic c r.2.1 ops with
      | none => none
      | some (outs, stF, cF) => some (.val (r.2.1.val r.1) :: outs, stF, cF)
    | .tryUpdate f sched =>
      match raw_try_update f c sched st with
      | .ok res c1 st1 _ =>
        match runAtomic c1 st1 ops with
        | none => none
        | some (outs, stF, cF) => some (.opt (res.map st1.val) :: outs, stF, cF)
      | _ => none

/-- Run the same scenario against the reader-writer-lock Slot. -/
def runRwlock : Nat → SlotState α → List (Op α) → Option (List (Out α) × SlotState α × Nat)
  | c, st, [] => some ([], st, c)
  | c, st, op :: ops =>
    match op with
    | .read =>
      let rd := rwRawRead st c
      match runRwlock rd.2.1 rd.2.2.1 ops with
      | none => none
      | some (outs, stF, cF) => some (.val (rd.2.2.1.val rd.1) :: outs, stF, cF)
    | .replace u =>
      let a := alloc st u
      let r := rwRawReplace a.2 a.1
      match runRwlock c r.2.1 ops with
      | none => none
      | some (outs, stF, cF) => some (.val (r.2.1.val r.1) :: outs, stF, cF)
    | .tryUpdate f sched =>
      match rwRawTryUpdate f c sched st with
      | .ok res c1 st1 _ =>
        match runRwlock c1 st1 ops with
        | none => none
        | some (outs, stF, cF) => some (.opt (res.map st1.val) :: outs, stF, cF)
      | _ => none

/-- Observable outputs of the atomic run. -/
def atomicOuts (c : Nat) (st : SlotState α) (ops : List (Op α)) : Option (List (Out α)) :=
  (runAtomic c st ops).map (fun r => r.1)

/-- Observable outputs of the rwlock run. -/
def rwlockOuts (c : Nat) (st : SlotState α) (ops : List (Op α)) : Option (List (Out α)) :=
  (runRwlock c st ops).map (fun r => r.1)

/-- Number of occurrences of an event in a trace. -/
def countEv (e : Event) : List Event → Nat
  | [] => 0
  | x :: xs => (if x = e then 1 else 0) + countEv e xs

end Arcu

namespace RcuRefModel

/-! ## RcuRef (src/src/rcu_ref.rs)

A pointer is modelled as an address paired with the value behind it; an
RcuRef bundles the strong root Arc pointer with the interior view
pointer.  Arc::ptr_eq and core::ptr::eq compare addresses. -/

/-- A pointer: address plus pointee. -/
structure Pt (γ : Type) where
  addr : Nat
  pval : γ
deriving DecidableEq, BEq

/-- The RcuRef snapshot handle: root Arc and interior view pointer. -/
structure RcuRef (T M : Type) where
  arc : Pt T
  data : Pt M
deriving DecidableEq, BEq

/-- RcuRef::new: the view initially covers the whole root. -/
def RcuRef.new (a : Pt T) : RcuRef T T :=
  { arc := a, data := a }

/-- RcuRef::map (rcu_ref.rs lines 40-49): keep the root, apply the mapping
function to the view pointer. -/
def RcuRef.map (reference : RcuRef T M) (f : Pt M → Pt N) : RcuRef T N :=
  { arc := reference.arc, data := f reference.data }

/-- RcuRef::try_map (rcu_ref.rs lines 52-62): apply the fallible mapping
function; on none return none, otherwise keep the (cloned) root with the
new view. -/
def RcuRef.try_map (reference : RcuRef T M) (f : Pt M → Option (Pt N)) :
    Option (RcuRef T N) :=
  match f reference.data with
  | none => none
  | some v => some { arc := reference.arc, data := v }

/-- RcuRef::same_epoch: Arc::ptr_eq on the roots. -/
def RcuRef.same_epoch (this : RcuRef T M) (other : RcuRef T M2) : Bool :=
  this.arc.addr == other.arc.addr

/-- RcuRef::ptr_eq: pointer identity of the views. -/
def RcuRef.ptr_eq (this other : RcuRef T M) : Bool :=
  this.data.addr == other.data.addr

/-- RcuRef::clone (rcu_ref.rs lines 83-88): share the root (incrementing
its strong count), keep the view pointer. -/
def RcuRef.clone (this : RcuRef T M) : RcuRef T M :=
  { arc := this.arc, data := this.data }

/-- RcuRef::get_root: the root payload. -/
def RcuRef.get_root (this : RcuRef T M) : T :=
  this.arc.pval

end RcuRefModel

namespace Arcu

/-! ## Helper lemmas -/

theorem enter_rcs_even {c : Nat} (h : c % 2 = 0) : enter_rcs c = some ((c + 1) % 256) := by
  simp [enter_rcs, fetchAdd1, h]

theorem leave_rcs_odd {c : Nat} (h : c % 2 = 1) : leave_rcs c = some ((c + 1) % 256) := by
  simp [leave_rcs, fetchAdd1, h]

theorem raw_read_even (st : SlotState α) {c : Nat} (h : c % 2 = 0) :
    raw_read st c
      = some (st.slot, (c + 2) % 256, bump st st.slot, [.enterRcs, .leaveRcs]) := by
  have h1 : (c + 1) % 256 % 2 = 1 := by omega
  have h2 : ((c + 1) % 256 + 1) % 256 = (c + 2) % 256 := by omega
  simp [raw_read, enter_rcs_even h, leave_rcs_odd h1, h2]

theorem raw_read_shape (st : SlotState α) {c : Nat} {p c2 : Nat} {st2 : SlotState α}
    {ev : List Event} (h : raw_read st c = some (p, c2, st2, ev)) :
    p = st.slot ∧ st2 = bump st st.slot ∧ ev = [.enterRcs, .leaveRcs] := by
  by_cases hc : c % 2 = 0
  · rw [raw_read_even st hc] at h
    obtain ⟨h1, _, h3, h4⟩ := by simpa using h
    exact ⟨h1.symm, h3.symm, h4.symm⟩
  · have hc1 : c % 2 = 1 := by omega
    simp [raw_read, enter_rcs, fetchAdd1, hc1] at h

theorem bump_val (st : SlotState α) (p : Ptr) : (bump st p).val = st.val := rfl

theorem bump_slot (st : SlotState α) (p : Ptr) : (bump st p).slot = st.slot := rfl

theorem bump_next (st : SlotState α) (p : Ptr) : (bump st p).next = st.next := rfl

theorem unbump_val (st : SlotState α) (p : Ptr) : (unbump st p).val = st.val := rfl

theorem unbump_slot (st : SlotState α) (p : Ptr) : (unbump st p).slot = st.slot := rfl

theorem unbump_next (st : SlotState α) (p : Ptr) : (unbump st p).next = st.next := rfl

theorem alloc_fst (st : SlotState α) (a : α) : (alloc st a).1 = st.next := rfl

theorem alloc_slot (st : SlotState α) (a : α) : (alloc st a).2.slot = st.slot := rfl

theorem alloc_next (st : SlotState α) (a : α) : (alloc st a).2.next = st.next + 1 := rfl

theorem alloc_val_self (st : SlotState α) (a : α) : (alloc st a).2.val st.next = a := by
  simp [alloc]

theorem alloc_val_lt (st : SlotState α) (a : α) {p : Ptr} (h : p < st.next) :
    (alloc st a).2.val p = st.val p := by
  simp [alloc, Nat.ne_of_lt h]

theorem arcuNew_slot (v : α) : (arcuNew v).slot = 0 := rfl

theorem arcuNew_next (v : α) : (arcuNew v).next = 1 := rfl

theorem arcuNew_val (v : α) (p : Ptr) : (arcuNew v).val p = v := by
  simp [arcuNew, alloc, emptySt]

theorem raw_read_odd (st : SlotState α) {c : Nat} (h : c % 2 = 1) :
    raw_read st c = none := by
  have h0 : ¬ c % 2 = 0 := by omega
  simp [raw_read, enter_rcs, fetchAdd1, h0]

theorem countEv_append (e : Event) (l1 l2 : List Event) :
    countEv e (l1 ++ l2) = countEv e l1 + countEv e l2 := by
  induction l1 with
  | nil => simp [countEv]
  | cons x xs ih => simp [countEv, ih]; omega

theorem withTrace_ok {α : Type} {pre : List Event} {x : RunRes α} {res : Option Ptr}
    {c : Nat} {st : SlotState α} {tr : List Event}
    (h : RunRes.withTrace pre x = .ok res c st tr) :
    ∃ tr2, x = .ok res c st tr2 ∧ tr = pre ++ tr2 := by
  cases x with
  | ok r2 c2 st2 tr2 =>
    simp only [RunRes.withTrace, RunRes.ok.injEq] at h
    obtain ⟨h1, h2, h3, h4⟩ := h
    exact ⟨tr2, by rw [h1, h2, h3], h4.symm⟩
  | abort => simp [RunRes.withTrace] at h
  | out => simp [RunRes.withTrace] at h

theorem cand_strong_one {α : Type} (st1 : SlotState α) (nv : α) (o : Option α) :
    (interfere (alloc st1 nv).2 o).strong (alloc st1 nv).1 = 1 := by
  cases o with
  | none => simp [interfere, alloc]
  | some a => simp [interfere, alloc]

theorem mem_scanInit {env0 : CtrId → Option Nat} {cs : List CtrId} {c : CtrId} {v : Nat}
    (hc : c ∈ cs) (henv : env0 c = some v) (hodd : v % 2 = 1) :
    (v, c) ∈ scanInit env0 cs := by
  rw [scanInit, List.mem_filterMap]
  refine ⟨c, hc, ?_⟩
  rw [henv]
  simp [show ¬ v % 2 = 0 by omega]

theorem waitLoop_obs {env : Nat → CtrId → Option Nat} :
    ∀ (fuel t : Nat) (ps : List (Nat × CtrId)) (T : Nat),
      waitLoop env fuel t ps = some T →
      ∀ p ∈ ps, ∃ t2, t ≤ t2 ∧ env t2 p.2 ≠ some p.1 := by
  intro fuel
  induction fuel with
  | zero =>
    intro t ps T h p hp
    rw [waitLoop] at h
    by_cases he : ps.isEmpty = true
    · rw [List.isEmpty_iff] at he
      subst he
      simp at hp
    · simp [he] at h
  | succ fuel ih =>
    intro t ps T h p hp
    rw [waitLoop] at h
    by_cases he : ps.isEmpty = true
    · rw [List.isEmpty_iff] at he
      subst he
      simp at hp
    · simp only [he, if_false] at h
      by_cases hp2 : p ∈ retainStep (env t) ps
      · obtain ⟨t2, ht2, hne⟩ := ih (t + 1) (retainStep (env t) ps) T h p hp2
        exact ⟨t2, by omega, hne⟩
      · refine ⟨t, Nat.le_refl t, fun hcontra => ?_⟩
        apply hp2
        rw [retainStep, List.mem_filter, hcontra]
        exact ⟨hp, by simp⟩

theorem waitLoop_stuck {env : Nat → CtrId → Option Nat} {c : CtrId} {v : Nat}
    (henv : ∀ t, env t c = some v) :
    ∀ (fuel t : Nat) (ps : List (Nat × CtrId)), (v, c) ∈ ps →
      waitLoop env fuel t ps = none := by
  intro fuel
  induction fuel with
  | zero =>
    intro t ps hmem
    rw [waitLoop]
    have hne : ¬ ps.isEmpty = true := by
      rw [List.isEmpty_iff]
      intro hx
      subst hx
      simp at hmem
    simp [hne]
  | succ fuel ih =>
    intro t ps hmem
    rw [waitLoop]
    have hne : ¬ ps.isEmpty = true := by
      rw [List.isEmpty_iff]
      intro hx
      subst hx
      simp at hmem
    simp only [hne, if_false]
    apply ih
    rw [retainStep, List.mem_filter]
    refine ⟨hmem, ?_⟩
    have hsc : env t (v, c).2 = some (v, c).1 := henv t
    rw [hsc]
    simp

theorem raw_try_update_counts {α : Type} (f : α → Option α) (sched : List (Option α)) :
    ∀ (c : Nat) (st : SlotState α) (res : Option Ptr) (c2 : Nat) (stF : SlotState α)
      (tr : List Event),
      raw_try_update f c sched st = .ok res c2 stF tr →
      countEv .waitEpochs tr = countEv .casSucc tr ∧
      countEv .casSucc tr ≤ 1 ∧
      countEv .deallocCand tr = countEv .casFail tr := by
  induction sched with
  | nil =>
    intro c st res c2 stF tr h
    rw [raw_try_update] at h
    by_cases hc : c % 2 = 0
    · rw [raw_read_even st hc] at h
      dsimp only at h
      rw [bump_val] at h
      cases hf : f (st.val st.slot) with
      | none =>
        rw [hf] at h
        simp only [RunRes.ok.injEq] at h
        obtain ⟨_, _, _, h4⟩ := h
        subst h4
        decide
      | some nv =>
        rw [hf] at h
        dsimp only [List.headD] at h
        rw [if_pos (show (interfere (alloc (bump st st.slot) nv).2 none).slot = st.slot
          from rfl)] at h
        simp only [RunRes.ok.injEq] at h
        obtain ⟨_, _, _, h4⟩ := h
        subst h4
        decide
    · rw [raw_read_odd st (by omega)] at h
      simp at h
  | cons x rest ih =>
    intro c st res c2 stF tr h
    rw [raw_try_update] at h
    by_cases hc : c % 2 = 0
    · rw [raw_read_even st hc] at h
      dsimp only at h
      rw [bump_val] at h
      cases hf : f (st.val st.slot) with
      | none =>
        rw [hf] at h
        simp only [RunRes.ok.injEq] at h
        obtain ⟨_, _, _, h4⟩ := h
        subst h4
        decide
      | some nv =>
        rw [hf] at h
        dsimp only [List.headD] at h
        by_cases hcond :
            (interfere (alloc (bump st st.slot) nv).2 x).slot = st.slot
        · rw [if_pos hcond] at h
          simp only [RunRes.ok.injEq] at h
          obtain ⟨_, _, _, h4⟩ := h
          subst h4
          decide
        · rw [if_neg hcond] at h
          have hdead : (decStrong (interfere (alloc (bump st st.slot) nv).2 x)
              (alloc (bump st st.slot) nv).1).2 = true := by
            simp [decStrong, cand_strong_one]
          rw [hdead] at h
          obtain ⟨tr2, hrec, htr⟩ := withTrace_ok h
          obtain ⟨e1, e2, e3⟩ := ih _ _ _ _ _ _ hrec
          subst htr
          simp only [countEv_append]
          constructor
          · simp [countEv]; omega
          constructor
          · simp [countEv]; omega
          · simp [countEv]; omega
    · rw [raw_read_odd st (by omega)] at h
      simp at h

theorem interfere_next (st : SlotState α) (o : Option α) :
    st.next ≤ (interfere st o).next := by
  cases o <;> simp [interfere, alloc]

theorem tryUpdate_agree {α : Type} (f : α → Option α) (sched : List (Option α)) :
    ∀ (c : Nat) (st : SlotState α), st.slot < st.next → c % 2 = 0 →
      ∃ res c2 st2 trA trR,
        raw_try_update f c sched st = .ok res c2 st2 trA ∧
        (∀ cR, rwRawTryUpdate f cR sched st = .ok res cR st2 trR) ∧
        c2 % 2 = 0 ∧ st2.slot < st2.next ∧ st.next ≤ st2.next := by
  induction sched with
  | nil =>
    intro c st hinv hc
    cases hf : f (st.val st.slot) with
    | none =>
      refine ⟨none, (c + 2) % 256, unbump (bump st st.slot) st.slot, [.enterRcs, .leaveRcs],
        [], ?_, fun cR => ?_, by omega, hinv, Nat.le_refl _⟩
      · rw [raw_try_update, raw_read_even st hc]
        dsimp only
        rw [bump_val, hf]
      · rw [rwRawTryUpdate]
        dsimp only [rwRawRead]
        rw [bump_val, hf]
    | some nv =>
      refine ⟨some st.slot, (c + 2) % 256,
        unbump { (alloc (bump st st.slot) nv).2 with slot := (alloc (bump st st.slot) nv).1 }
          st.slot,
        [.enterRcs, .leaveRcs, .casSucc, .waitEpochs], [], ?_, fun cR => ?_, by omega,
        Nat.lt_succ_self st.next, Nat.le_succ st.next⟩
      · rw [raw_try_update, raw_read_even st hc]
        dsimp only
        rw [bump_val, hf]
        dsimp only [List.headD, interfere]
        rw [if_pos (show (alloc (bump st st.slot) nv).2.slot = st.slot from rfl)]
        rfl
      · rw [rwRawTryUpdate]
        dsimp only [rwRawRead]
        rw [bump_val, hf]
        dsimp only [List.headD, interfere]
        rw [if_pos (show (alloc (bump st st.slot) nv).2.slot = st.slot from rfl)]
  | cons x rest ih =>
    intro c st hinv hc
    cases hf : f (st.val st.slot) with
    | none =>
      refine ⟨none, (c + 2) % 256, unbump (bump st st.slot) st.slot, [.enterRcs, .leaveRcs],
        [], ?_, fun cR => ?_, by omega, hinv, Nat.le_refl _⟩
      · rw [raw_try_update, raw_read_even st hc]
        dsimp only
        rw [bump_val, hf]
      · rw [rwRawTryUpdate]
        dsimp only [rwRawRead]
        rw [bump_val, hf]
    | some nv =>
      cases x with
      | none =>
        refine ⟨some st.slot, (c + 2) % 256,
          unbump { (alloc (bump st st.slot) nv).2 with slot := (alloc (bump st st.slot) nv).1 }
            st.slot,
          [.enterRcs, .leaveRcs, .casSucc, .waitEpochs], [], ?_, fun cR => ?_, by omega,
          Nat.lt_succ_self st.next, Nat.le_succ st.next⟩
        · rw [raw_try_update, raw_read_even st hc]
          dsimp only
          rw [bump_val, hf]
          dsimp only [List.headD, interfere]
          rw [if_pos (show (alloc (bump st st.slot) nv).2.slot = st.slot from rfl)]
          rfl
        · rw [rwRawTryUpdate]
          dsimp only [rwRawRead]
          rw [bump_val, hf]
          dsimp only [List.headD, interfere]
          rw [if_pos (show (alloc (bump st st.slot) nv).2.slot = st.slot from rfl)]
      | some a =>
        have hcond :
            ¬ (interfere (alloc (bump st st.slot) nv).2 (some a)).slot = st.slot := by
          exact Nat.ne_of_gt (Nat.lt_succ_of_lt hinv)
        have hdead : (decStrong (interfere (alloc (bump st st.slot) nv).2 (some a))
            (alloc (bump st st.slot) nv).1).2 = true := by
          simp [decStrong, cand_strong_one]
        obtain ⟨res, c2, st2, trA, trR, hA, hR, hc2, hlt, hle⟩ :=
          ih ((c + 2) % 256)
            (unbump
              (decStrong (interfere (alloc (bump st st.slot) nv).2 (some a))
                (alloc (bump st st.slot) nv).1).1
              st.slot)
            (show (st.next + 1 < st.next + 2) from Nat.lt_succ_self (st.next + 1))
            (by omega)
        refine ⟨res, c2, st2,
          [.enterRcs, .leaveRcs, .casFail, .deallocCand] ++ trA,
          [.deallocCand] ++ trR, ?_, fun cR => ?_, hc2, hlt, ?_⟩
        · rw [raw_try_update, raw_read_even st hc]
          dsimp only
          rw [bump_val, hf]
          dsimp only [List.headD]
          rw [if_neg hcond, hdead, hA]
          rfl
        · rw [rwRawTryUpdate]
          dsimp only [rwRawRead]
          rw [bump_val, hf]
          dsimp only [List.headD]
          rw [if_neg hcond, hdead, hR cR]
          rfl
        · have : st.next + 2 ≤ st2.next := by
            have h2 :
              (unbump
                (decStrong (interfere (alloc (bump st st.slot) nv).2 (some a))
                  (alloc (bump st st.slot) nv).1).1
                st.slot).next = st.next + 2 := rfl
            rw [h2] at hle
            exact hle
          exact Nat.le_trans (Nat.le_add_right st.next 2) this

theorem run_agree {α : Type} (ops : List (Op α)) :
    ∀ (c cR : Nat) (st : SlotState α), st.slot < st.next → c % 2 = 0 →
      ∃ outs stF cA, runAtomic c st ops = some (outs, stF, cA) ∧
        runRwlock cR st ops = some (outs, stF, cR) := by
  induction ops with
  | nil =>
    intro c cR st hinv hc
    exact ⟨[], st, c, rfl, rfl⟩
  | cons op ops ih =>
    intro c cR st hinv hc
    cases op with
    | read =>
      obtain ⟨outs, stF, cA, hA, hR⟩ := ih ((c + 2) % 256) cR (bump st st.slot) hinv (by omega)
      refine ⟨.val ((bump st st.slot).val st.slot) :: outs, stF, cA, ?_, ?_⟩
      · rw [runAtomic, raw_read_even st hc]
        dsimp only
        rw [hA]
      · rw [runRwlock]
        dsimp only [rwRawRead]
        rw [hR]
    | replace u =>
      obtain ⟨outs, stF, cA, hA, hR⟩ :=
        ih c cR
          { slot := (alloc st u).1, strong := (alloc st u).2.strong,
            val := (alloc st u).2.val, next := (alloc st u).2.next }
          (Nat.lt_succ_self st.next) hc
      refine ⟨.val ((alloc st u).2.val (alloc st u).2.slot) :: outs, stF, cA, ?_, ?_⟩
      · rw [runAtomic]
        dsimp only [raw_replace]
        rw [hA]
      · rw [runRwlock]
        dsimp only [rwRawReplace]
        rw [hR]
    | tryUpdate f sched =>
      obtain ⟨res, c2, st2, trA, trR, hTA, hTR, hc2, hlt2, _⟩ :=
        tryUpdate_agree f sched c st hinv hc
      obtain ⟨outs, stF, cA, hA, hR⟩ := ih c2 cR st2 hlt2 hc2
      refine ⟨.opt (res.map st2.val) :: outs, stF, cA, ?_, ?_⟩
      · rw [runAtomic, hTA]
        dsimp only
        rw [hA]
      · rw [runRwlock, hTR cR]
        dsimp only
        rw [hR]

theorem runReplaces_spec (us : List α) :
    ∀ st : SlotState α, st.slot < st.next →
      List.map (runReplaces st us).2.1.val (runReplaces st us).1
          = (st.val st.slot :: us).dropLast ∧
      (runReplaces st us).2.1.val (runReplaces st us).2.1.slot
          = us.getLastD (st.val st.slot) ∧
      (runReplaces st us).2.1.slot < (runReplaces st us).2.1.next ∧
      st.next ≤ (runReplaces st us).2.1.next ∧
      ∀ p, p < st.next → (runReplaces st us).2.1.val p = st.val p := by
  induction us with
  | nil =>
    intro st h
    exact ⟨rfl, rfl, h, Nat.le_refl _, fun p _ => rfl⟩
  | cons u rest ih =>
    intro st h
    obtain ⟨ihmap, ihlast, ihlt, ihle, ihval⟩ :=
      ih (raw_replace (alloc st u).2 (alloc st u).1).2.1 (Nat.lt_succ_self st.next)
    have hv2 : (raw_replace (alloc st u).2 (alloc st u).1).2.1.val
        (raw_replace (alloc st u).2 (alloc st u).1).2.1.slot = u := alloc_val_self st u
    refine ⟨?_, ?_, ihlt, le_trans (Nat.le_succ st.next) ihle, ?_⟩
    · show (runReplaces (raw_replace (alloc st u).2 (alloc st u).1).2.1 rest).2.1.val st.slot
          :: List.map (runReplaces (raw_replace (alloc st u).2 (alloc st u).1).2.1 rest).2.1.val
               (runReplaces (raw_replace (alloc st u).2 (alloc st u).1).2.1 rest).1
        = (st.val st.slot :: u :: rest).dropLast
      rw [List.dropLast_cons₂, ihval st.slot (Nat.lt_succ_of_lt h), ihmap, hv2]
      show (alloc st u).2.val st.slot :: _ = _
      rw [alloc_val_lt st u h]
    · show (runReplaces (raw_replace (alloc st u).2 (alloc st u).1).2.1 rest).2.1.val
          (runReplaces (raw_replace (alloc st u).2 (alloc st u).1).2.1 rest).2.1.slot
        = (u :: rest).getLastD (st.val st.slot)
      rw [ihlast, hv2, List.getLastD_cons]
    · intro p hp
      show (runReplaces (raw_replace (alloc st u).2 (alloc st u).1).2.1 rest).2.1.val p
        = st.val p
      rw [ihval p (Nat.lt_succ_of_lt hp)]
      exact alloc_val_lt st u hp

/-! ## Claim theorems -/

/-- Claim C7: the atomic Slot and the reader-writer-lock Slot are
observably equivalent: one scenario of read, replace and tryUpdate
operations (each tryUpdate suffering the same interference schedule in
both runs) yields the same outputs and even the same final slot state in
both implementations, so the rwlock variant is a refinement oracle for
the atomic variant. -/
theorem claim_C7 {α : Type} (v : α) (ops : List (Op α)) (c cR : Nat) (hc : c % 2 = 0) :
    atomicOuts c (arcuNew v) ops = rwlockOuts cR (arcuNew v) ops ∧
    ∃ outs stF cA, runAtomic c (arcuNew v) ops = some (outs, stF, cA) ∧
      runRwlock cR (arcuNew v) ops = some (outs, stF, cR) := by
  obtain ⟨outs, stF, cA, hA, hR⟩ := run_agree ops c cR (arcuNew v) Nat.zero_lt_one hc
  refine ⟨?_, outs, stF, cA, hA, hR⟩
  rw [atomicOuts, rwlockOuts, hA, hR]
  rfl

/-- Witness for claim C7: a concrete four-operation scenario behaves
identically on both implementations. -/
theorem claim_C7_witness :
    atomicOuts 0 (arcuNew (1 : Nat))
        [Op.read, Op.replace 2, Op.tryUpdate (fun n => some (n + 1)) [some 9], Op.read]
      = rwlockOuts 0 (arcuNew (1 : Nat))
        [Op.read, Op.replace 2, Op.tryUpdate (fun n => some (n + 1)) [some 9], Op.read] ∧
    ∃ outs stF cA,
      runAtomic 0 (arcuNew (1 : Nat))
          [Op.read, Op.replace 2, Op.tryUpdate (fun n => some (n + 1)) [some 9], Op.read]
        = some (outs, stF, cA) ∧
      runRwlock 0 (arcuNew (1 : Nat))
          [Op.read, Op.replace 2, Op.tryUpdate (fun n => some (n + 1)) [some 9], Op.read]
        = some (outs, stF, 0) :=
  claim_C7 1 [Op.read, Op.replace 2, Op.tryUpdate (fun n => some (n + 1)) [some 9], Op.read]
    0 0 rfl

/-- Claim C1: whenever wait_for_epochs returns, then for every counter in
the registry it scanned at least one of the following was observed since
the scan began: the counter sampled even, the counter later observed with
a value different from its odd sample, or its weak reference failed to
upgrade; counters sampled even or dead at scan start never enter the wait
list; and if some registered counter stays alive at the same odd value
forever, wait_for_epochs never returns. -/
theorem claim_C1 (env : Nat → CtrId → Option Nat) (fuel : Nat) (cs : List CtrId) :
    (∀ T, wait_for_epochs env fuel cs = some T →
      ∀ c ∈ cs, env 0 c = none ∨ (∃ v, env 0 c = some v ∧ v % 2 = 0) ∨
        ∃ v t, env 0 c = some v ∧ 1 ≤ t ∧ env t c ≠ some v) ∧
    (∀ c, (env 0 c = none ∨ ∃ v, env 0 c = some v ∧ v % 2 = 0) →
      ∀ w, (w, c) ∉ scanInit (env 0) cs) ∧
    (∀ c v, c ∈ cs → v % 2 = 1 → (∀ t, env t c = some v) →
      wait_for_epochs env fuel cs = none) := by
  refine ⟨fun T hT c hc => ?_, fun c hcase w hmem => ?_, fun c v hc hodd henv => ?_⟩
  · cases h0 : env 0 c with
    | none => exact Or.inl rfl
    | some v =>
      by_cases hv : v % 2 = 0
      · exact Or.inr (Or.inl ⟨v, rfl, hv⟩)
      · rw [wait_for_epochs] at hT
        obtain ⟨t2, ht2, hne⟩ :=
          waitLoop_obs fuel 1 (scanInit (env 0) cs) T hT (v, c)
            (mem_scanInit hc h0 (by omega))
        exact Or.inr (Or.inr ⟨v, t2, rfl, ht2, hne⟩)
  · rw [scanInit, List.mem_filterMap] at hmem
    obtain ⟨a, ha, hg⟩ := hmem
    cases hea : env 0 a with
    | none => simp [hea] at hg
    | some u =>
      by_cases hu : u % 2 = 0
      · simp [hea, hu] at hg
      · simp [hea, hu] at hg
        obtain ⟨h1, h2⟩ := hg
        subst h2
        cases hcase with
        | inl hnone => rw [hnone] at hea; cases hea
        | inr hsome =>
          obtain ⟨vv, hvv, hvve⟩ := hsome
          rw [hvv] at hea
          have : vv = u := by injection hea
          omega
  · rw [wait_for_epochs]
    exact waitLoop_stuck henv fuel 1 (scanInit (env 0) cs) (mem_scanInit hc (henv 0) hodd)

/-- Witness for claim C1: a registry with one even counter lets the scan
return at once, and a registry with one permanently odd counter makes
wait_for_epochs spin out any amount of fuel. -/
theorem claim_C1_witness :
    (∀ c ∈ ([0] : List CtrId),
      (fun (_ : Nat) (_ : CtrId) => (some 2 : Option Nat)) 0 c = none ∨
      (∃ v, (fun (_ : Nat) (_ : CtrId) => (some 2 : Option Nat)) 0 c = some v ∧ v % 2 = 0) ∨
      ∃ v t, (fun (_ : Nat) (_ : CtrId) => (some 2 : Option Nat)) 0 c = some v ∧ 1 ≤ t ∧
        (fun (_ : Nat) (_ : CtrId) => (some 2 : Option Nat)) t c ≠ some v) ∧
    wait_for_epochs (fun _ _ => some 1) 1 [0] = none :=
  ⟨(claim_C1 (fun _ _ => some 2) 1 [0]).1 1 (by decide),
   (claim_C1 (fun _ _ => some 1) 1 [0]).2.2 0 1 (by decide) (by decide) (fun _ => rfl)⟩

/-- Claim C2: starting from initial value v, a sequence of sequential
replace calls with payloads us displaces, in order, exactly the values
that were current immediately before each call, namely v followed by all
but the last payload (in particular a permutation of those values), and a
final read returns the last payload. -/
theorem claim_C2 {α : Type} (v : α) (us : List α) (h : us ≠ []) :
    List.map (runReplaces (arcuNew v) us).2.1.val (runReplaces (arcuNew v) us).1
        = v :: us.dropLast ∧
    (v :: us.dropLast).Perm
        (List.map (runReplaces (arcuNew v) us).2.1.val (runReplaces (arcuNew v) us).1) ∧
    readValue (runReplaces (arcuNew v) us).2.1 0 = some (us.getLastD v) := by
  obtain ⟨hmap, hlast, _, _, _⟩ := runReplaces_spec us (arcuNew v) Nat.zero_lt_one
  simp only [arcuNew_val] at hmap hlast
  obtain ⟨w, rest, rfl⟩ := List.exists_cons_of_ne_nil h
  rw [List.dropLast_cons₂] at hmap
  have hr := raw_read_even (runReplaces (arcuNew v) (w :: rest)).2.1 (c := 0) rfl
  refine ⟨hmap, by rw [hmap], ?_⟩
  simp only [readValue, hr]
  rw [bump_val, hlast]

/-- Witness for claim C2: three sequential replaces on a concrete slot. -/
theorem claim_C2_witness :
    (([2, 3] : List Nat) ≠ []) ∧
    (List.map (runReplaces (arcuNew 1) [2, 3]).2.1.val (runReplaces (arcuNew 1) [2, 3]).1
        = 1 :: ([2, 3] : List Nat).dropLast ∧
     (1 :: ([2, 3] : List Nat).dropLast).Perm
        (List.map (runReplaces (arcuNew 1) [2, 3]).2.1.val (runReplaces (arcuNew 1) [2, 3]).1) ∧
     readValue (runReplaces (arcuNew 1) [2, 3]).2.1 0 = some (([2, 3] : List Nat).getLastD 1)) :=
  ⟨by decide, claim_C2 1 [2, 3] (by decide)⟩

/-- Claim C4: when the update function returns none on the current
payload, raw_try_update returns none with the slot pointer unchanged, the
strong counts unchanged (only the read reference is taken and dropped),
and an event trace containing neither a swap, a compare-and-swap, a
quiescence wait, nor a deallocation. -/
theorem claim_C4 {α : Type} (f : α → Option α) (c : Nat) (sched : List (Option α))
    (st : SlotState α) (hf : f (st.val st.slot) = none) (hc : c % 2 = 0) :
    raw_try_update f c sched st
      = .ok none ((c + 2) % 256) (unbump (bump st st.slot) st.slot) [.enterRcs, .leaveRcs] ∧
    (unbump (bump st st.slot) st.slot).slot = st.slot ∧
    (unbump (bump st st.slot) st.slot).strong = st.strong := by
  refine ⟨?_, rfl, ?_⟩
  · rw [raw_try_update, raw_read_even st hc]
    simp only [bump_val, hf]
  · funext q
    by_cases hq : q = st.slot <;> simp [unbump, bump, hq]

/-- Witness for claim C4: an always-none update function on a concrete slot. -/
theorem claim_C4_witness :
    ((fun _ : Nat => (none : Option Nat)) ((arcuNew (5 : Nat)).val (arcuNew (5 : Nat)).slot)
        = none) ∧
    ((0 : Nat) % 2 = 0) ∧
    (raw_try_update (fun _ : Nat => none) 0 [] (arcuNew 5)
        = .ok none ((0 + 2) % 256)
            (unbump (bump (arcuNew 5) (arcuNew 5).slot) (arcuNew 5).slot)
            [.enterRcs, .leaveRcs] ∧
     (unbump (bump (arcuNew 5) (arcuNew 5).slot) (arcuNew 5).slot).slot = (arcuNew 5).slot ∧
     (unbump (bump (arcuNew 5) (arcuNew 5).slot) (arcuNew 5).slot).strong
        = (arcuNew 5).strong) :=
  ⟨rfl, rfl, claim_C4 (fun _ => none) 0 [] (arcuNew 5) rfl rfl⟩

/-- Claim C3 (amended to the atomic.rs implementation): in every
terminating run of raw_try_update from atomic.rs, wait_for_epochs is
invoked exactly once per successful compare-and-swap and never on a
failed one (at most one success occurs), and each failed iteration
reclaims its unused candidate by deallocating it exactly once.  (The
older arcu.rs variant of raw_try_update additionally invokes
wait_for_epochs on every failed iteration, see the counterexample.) -/
theorem claim_C3 {α : Type} (f : α → Option α) (sched : List (Option α)) (c : Nat)
    (st : SlotState α) (tr : List Event)
    (h : (raw_try_update f c sched st).traceOf = some tr) :
    countEv .waitEpochs tr = countEv .casSucc tr ∧
    countEv .casSucc tr ≤ 1 ∧
    countEv .deallocCand tr = countEv .casFail tr := by
  cases hx : raw_try_update f c sched st with
  | ok res c2 stF tr2 =>
    rw [hx] at h
    simp only [RunRes.traceOf, Option.some.injEq] at h
    subst h
    exact raw_try_update_counts f sched c st res c2 stF tr2 hx
  | abort => rw [hx] at h; simp [RunRes.traceOf] at h
  | out => rw [hx] at h; simp [RunRes.traceOf] at h

/-- Witness for claim C3: a run of the atomic raw_try_update with one
interfering writer; the failed iteration drops the candidate without
waiting, the successful one waits. -/
theorem claim_C3_witness :
    (raw_try_update (fun n : Nat => some (n + 1)) 0 [some 5] (arcuNew 0)).traceOf
        = some [.enterRcs, .leaveRcs, .casFail, .deallocCand,
                .enterRcs, .leaveRcs, .casSucc, .waitEpochs] ∧
    (countEv .waitEpochs [.enterRcs, .leaveRcs, .casFail, .deallocCand,
                .enterRcs, .leaveRcs, .casSucc, .waitEpochs]
        = countEv .casSucc [.enterRcs, .leaveRcs, .casFail, .deallocCand,
                .enterRcs, .leaveRcs, .casSucc, .waitEpochs] ∧
     countEv .casSucc [.enterRcs, .leaveRcs, .casFail, .deallocCand,
                .enterRcs, .leaveRcs, .casSucc, .waitEpochs] ≤ 1 ∧
     countEv .deallocCand [.enterRcs, .leaveRcs, .casFail, .deallocCand,
                .enterRcs, .leaveRcs, .casSucc, .waitEpochs]
        = countEv .casFail [.enterRcs, .leaveRcs, .casFail, .deallocCand,
                .enterRcs, .leaveRcs, .casSucc, .waitEpochs]) :=
  ⟨by decide, claim_C3 (fun n => some (n + 1)) [some 5] 0 (arcuNew 0) _ (by decide)⟩

/-- Counterexample for claim C3 as stated: in the arcu.rs variant of
raw_try_update, a failed compare-and-swap iteration does invoke
wait_for_epochs before reclaiming the candidate, so the quiescence wait
is not restricted to compare-and-swap success: in this concrete run one
compare-and-swap succeeds but wait_for_epochs runs twice. -/
theorem claim_C3_cex :
    (raw_try_update_old (fun n : Nat => some (n + 1)) 0 [some 5] (arcuNew 0)).traceOf
        = some [.enterRcs, .leaveRcs, .casFail, .waitEpochs, .deallocCand,
                .enterRcs, .leaveRcs, .casSucc, .waitEpochs] ∧
    countEv .waitEpochs [.enterRcs, .leaveRcs, .casFail, .waitEpochs, .deallocCand,
                .enterRcs, .leaveRcs, .casSucc, .waitEpochs] = 2 ∧
    countEv .casSucc [.enterRcs, .leaveRcs, .casFail, .waitEpochs, .deallocCand,
                .enterRcs, .leaveRcs, .casSucc, .waitEpochs] = 1 ∧
    countEv .casFail [.enterRcs, .leaveRcs, .casFail, .waitEpochs, .deallocCand,
                .enterRcs, .leaveRcs, .casSucc, .waitEpochs] = 1 := by
  decide

/-- Claim C5: enter_rcs atomically increments and aborts exactly when the
old counter value was odd; leave_rcs atomically increments and aborts
exactly when the old value was even; starting from an even value,
alternating enter/leave pairs with no concurrent user never fire either
assertion and return to an even value. -/
theorem claim_C5 :
    (∀ v : Nat, enter_rcs v = none ↔ v % 2 = 1) ∧
    (∀ v : Nat, leave_rcs v = none ↔ v % 2 = 0) ∧
    (∀ (v n : Nat), v % 2 = 0 → ∃ w, rcsPairs v n = some w ∧ w % 2 = 0) := by
  refine ⟨fun v => ?_, fun v => ?_, fun v n hv => ?_⟩
  · by_cases h : v % 2 = 0 <;> simp [enter_rcs, fetchAdd1, h] <;> omega
  · by_cases h : v % 2 = 0 <;> simp [leave_rcs, fetchAdd1, h] <;> omega
  · induction n with
    | zero => exact ⟨v, rfl, hv⟩
    | succ n ih =>
      obtain ⟨w, hw, hwe⟩ := ih
      have h1 : (w + 1) % 256 % 2 = 1 := by omega
      refine ⟨((w + 1) % 256 + 1) % 256, ?_, by omega⟩
      simp [rcsPairs, hw, enter_rcs_even hwe, leave_rcs_odd h1]

/-- Witness for claim C5 at concrete inputs. -/
theorem claim_C5_witness :
    (enter_rcs 3 = none ↔ (3 : Nat) % 2 = 1) ∧
    ∃ w, rcsPairs 4 3 = some w ∧ w % 2 = 0 :=
  ⟨claim_C5.1 3, claim_C5.2.2 4 3 (by decide)⟩

/-- Claim C6: a completed raw_read performs exactly one enter_rcs /
leave_rcs pair (the event trace is exactly that pair), and brings the
8-bit counter from the even pre-call value c to the even value
(c + 2) mod 256, which differs from c. -/
theorem claim_C6 {α : Type} (st : SlotState α) (c : Nat) (h0 : c % 2 = 0) (h1 : c < 256) :
    raw_read st c
      = some (st.slot, (c + 2) % 256, bump st st.slot, [.enterRcs, .leaveRcs]) ∧
    (c + 2) % 256 % 2 = 0 ∧ (c + 2) % 256 ≠ c :=
  ⟨raw_read_even st h0, by omega, by omega⟩

/-- Witness for claim C6: a concrete slot read from counter value 0. -/
theorem claim_C6_witness :
    raw_read (arcuNew (7 : Nat)) 0
      = some ((arcuNew (7 : Nat)).slot, (0 + 2) % 256,
          bump (arcuNew (7 : Nat)) (arcuNew (7 : Nat)).slot, [.enterRcs, .leaveRcs]) ∧
    (0 + 2) % 256 % 2 = 0 ∧ (0 + 2) % 256 ≠ 0 :=
  claim_C6 (arcuNew 7) 0 (by decide) (by decide)

/-- Claim C10: a freshly constructed EpochCounter (new or Default) holds
value 0, which is even, and a counter sampled at that value is discarded
by the initial scan of wait_for_epochs, hence never waited on. -/
theorem claim_C10 :
    EpochCounter.new = 0 ∧ EpochCounter.default = 0 ∧ EpochCounter.new % 2 = 0 ∧
    ∀ (env0 : CtrId → Option Nat) (cs : List CtrId) (c : CtrId) (w : Nat),
      env0 c = some EpochCounter.new → (w, c) ∉ scanInit env0 cs := by
  refine ⟨rfl, rfl, rfl, fun env0 cs c w henv hmem => ?_⟩
  rw [scanInit, List.mem_filterMap] at hmem
  obtain ⟨a, _, hg⟩ := hmem
  cases ha : env0 a with
  | none => simp [ha] at hg
  | some u =>
    by_cases hu : u % 2 = 0
    · simp [ha, hu] at hg
    · simp [ha, hu] at hg
      obtain ⟨hw, hac⟩ := hg
      subst hac
      rw [henv] at ha
      simp [EpochCounter.new] at ha
      omega

/-- Witness for claim C10: a concrete registry holding one fresh counter. -/
theorem claim_C10_witness :
    (5, 3) ∉ scanInit (fun _ => some EpochCounter.new) [3] :=
  claim_C10.2.2.2 (fun _ => some EpochCounter.new) [3] 3 5 rfl

end Arcu

namespace RcuRefModel

/-- Claim C8: map keeps the root payload instance (so same_epoch holds
against any clone of the original) and sets the view to the image of the
old view under the mapping function; try_map keeps the root whenever the
function returns a value, hands that value back as the view, and returns
none exactly when the function returns none. -/
theorem claim_C8 {T M N : Type} (s : RcuRef T M) (f : Pt M → Pt N)
    (g : Pt M → Option (Pt N)) :
    (RcuRef.map s f).arc = s.arc ∧
    RcuRef.same_epoch (RcuRef.map s f) (RcuRef.clone s) = true ∧
    (RcuRef.map s f).data = f s.data ∧
    (∀ r, RcuRef.try_map s g = some r → r.arc = s.arc ∧ g s.data = some r.data) ∧
    (RcuRef.try_map s g = none ↔ g s.data = none) := by
  refine ⟨rfl, ?_, rfl, fun r hr => ?_, ?_⟩
  · simp [RcuRef.same_epoch, RcuRef.map, RcuRef.clone]
  · cases hg : g s.data with
    | none => simp [RcuRef.try_map, hg] at hr
    | some v =>
      simp [RcuRef.try_map, hg] at hr
      subst hr
      exact ⟨rfl, rfl⟩
  · cases hg : g s.data <;> simp [RcuRef.try_map, hg]

/-- Witness for claim C8 at a concrete snapshot and projections. -/
theorem claim_C8_witness :
    (∀ r, RcuRef.try_map (RcuRef.new (Pt.mk 1 (10 : Nat)))
        (fun p => some (Pt.mk 2 (p.pval + 1))) = some r →
      r.arc = (RcuRef.new (Pt.mk 1 (10 : Nat))).arc ∧
      (fun p : Pt Nat => some (Pt.mk 2 (p.pval + 1))) (RcuRef.new (Pt.mk 1 (10 : Nat))).data
        = some r.data) ∧
    RcuRef.same_epoch
        (RcuRef.map (RcuRef.new (Pt.mk 1 (10 : Nat))) (fun p => Pt.mk 2 p.pval))
        (RcuRef.clone (RcuRef.new (Pt.mk 1 (10 : Nat)))) = true :=
  ⟨(claim_C8 (RcuRef.new (Pt.mk 1 10)) (fun p => Pt.mk 2 p.pval)
      (fun p => some (Pt.mk 2 (p.pval + 1)))).2.2.2.1,
   (claim_C8 (RcuRef.new (Pt.mk 1 10)) (fun p => Pt.mk 2 p.pval)
      (fun p => some (Pt.mk 2 (p.pval + 1)))).2.1⟩

/-- Claim C9: clone shares the root of its argument, so same_epoch between
a snapshot and its clone holds, the view pointer of the clone is identical
(ptr_eq holds), the clone equals the original snapshot, and same_epoch is
true exactly when two snapshots share the same root payload instance. -/
theorem claim_C9 {T M : Type} (s : RcuRef T M) :
    RcuRef.same_epoch s (RcuRef.clone s) = true ∧
    RcuRef.ptr_eq s (RcuRef.clone s) = true ∧
    RcuRef.clone s = s ∧
    ∀ (M2 : Type) (a : RcuRef T M) (b : RcuRef T M2),
      RcuRef.same_epoch a b = true ↔ a.arc.addr = b.arc.addr := by
  refine ⟨?_, ?_, rfl, fun M2 a b => ?_⟩
  · simp [RcuRef.same_epoch, RcuRef.clone]
  · simp [RcuRef.ptr_eq, RcuRef.clone]
  · simp [RcuRef.same_epoch]

/-- Witness for claim C9 at a concrete snapshot. -/
theorem claim_C9_witness :
    RcuRef.same_epoch (RcuRef.new (Pt.mk 4 (9 : Nat)))
        (RcuRef.clone (RcuRef.new (Pt.mk 4 (9 : Nat)))) = true ∧
    RcuRef.ptr_eq (RcuRef.new (Pt.mk 4 (9 : Nat)))
        (RcuRef.clone (RcuRef.new (Pt.mk 4 (9 : Nat)))) = true :=
  ⟨(claim_C9 (RcuRef.new (Pt.mk 4 9))).1, (claim_C9 (RcuRef.new (Pt.mk 4 9))).2.1⟩

end RcuRefModel
